import Mathlib

/-!
Verification development for the mp3-rewind streaming-audio repository.

Shallow embedding of:
  * src/utils/circular_buffers.c   (bounded byte ring)
  * src/audio/wav_decoder.c        (RIFF/WAV container parser)
  * src/audio/audioplay.c          (PWM playback backend state machine and writer)
  * src/audio/audiosys.c           (audio abstraction layer state machine)
  * src/audio/audio_buffers.c      (fixed buffer pool and statistics)

Machine integers are modelled as Nat with explicit reductions modulo 2^32
(uint32_t) and 2^64 (size_t) at the points where the C code can wrap.
Byte buffers are List Nat; C arrays read through pointers are modelled as
total functions Nat -> Nat written and read at explicit indices, mirroring
the source memcpy index arithmetic.
-/

namespace CircularBuffers

/-- State of a circular_buffer_t (circular_buffers.h): backing array, size,
head (next write offset), tail (next read offset), count of held bytes.
The mutex and condition variables have no sequential content. -/
structure circular_buffer where
  buffer : Nat → Nat
  size : Nat
  head : Nat
  tail : Nat
  count : Nat

/-- Model of memcpy into the backing array: write the bytes of data at
consecutive indices starting at pos. -/
def storeBytes : (Nat → Nat) → Nat → List Nat → (Nat → Nat)
  | buf, _, [] => buf
  | buf, pos, b :: rest => storeBytes (fun j => if j = pos then b else buf j) (pos + 1) rest

/-- Model of memcpy out of the backing array: read len bytes starting at pos. -/
def loadBytes (buf : Nat → Nat) (pos len : Nat) : List Nat :=
  (List.range len).map fun i => buf (pos + i)

/-- circular_buffer_init (circular_buffers.c:15-33): rejects size 0, zeroes
head, tail and count. The null-pointer checks have no model content. -/
def circular_buffer_init (buffer : Nat → Nat) (size : Nat) : Option circular_buffer :=
  if size = 0 then none
  else some { buffer := buffer, size := size, head := 0, tail := 0, count := 0 }

/-- circular_buffer_write (circular_buffers.c:35-69): non-blocking short
write of min(len, size - count) bytes, split at the physical end of the
backing array on wraparound.  Returns the new state and the accepted count. -/
def circular_buffer_write (cb : circular_buffer) (data : List Nat) : circular_buffer × Nat :=
  if data.length = 0 then (cb, 0)
  else
    let available := cb.size - cb.count
    let to_write := if data.length > available then available else data.length
    if to_write = 0 then (cb, 0)
    else
      let bytes_to_end := cb.size - cb.head
      let buf :=
        if to_write ≤ bytes_to_end then
          storeBytes cb.buffer cb.head (data.take to_write)
        else
          storeBytes (storeBytes cb.buffer cb.head (data.take bytes_to_end)) 0
            ((data.drop bytes_to_end).take (to_write - bytes_to_end))
      ({ cb with buffer := buf,
                 head := (cb.head + to_write) % cb.size,
                 count := cb.count + to_write }, to_write)

/-- circular_buffer_write_timeout (circular_buffers.c:71-108): identical copy
logic, but when the buffer is completely full it waits on the not_full
condition variable.  In this sequential model no concurrent reader can free
space, so a wait on a full buffer can only time out and return 0. -/
def circular_buffer_write_timeout (cb : circular_buffer) (data : List Nat) :
    circular_buffer × Nat :=
  if data.length = 0 then (cb, 0)
  else if cb.count = cb.size then (cb, 0)
  else
    let available := cb.size - cb.count
    let to_write := if data.length > available then available else data.length
    let bytes_to_end := cb.size - cb.head
    let buf :=
      if to_write ≤ bytes_to_end then
        storeBytes cb.buffer cb.head (data.take to_write)
      else
        storeBytes (storeBytes cb.buffer cb.head (data.take bytes_to_end)) 0
          ((data.drop bytes_to_end).take (to_write - bytes_to_end))
    ({ cb with buffer := buf,
               head := (cb.head + to_write) % cb.size,
               count := cb.count + to_write }, to_write)

/-- circular_buffer_read (circular_buffers.c:110-143): non-blocking short
read of min(len, count) bytes, split at the physical end on wraparound. -/
def circular_buffer_read (cb : circular_buffer) (len : Nat) : circular_buffer × List Nat :=
  if len = 0 then (cb, [])
  else
    let to_read := if len > cb.count then cb.count else len
    if to_read = 0 then (cb, [])
    else
      let bytes_to_end := cb.size - cb.tail
      let out :=
        if to_read ≤ bytes_to_end then loadBytes cb.buffer cb.tail to_read
        else loadBytes cb.buffer cb.tail bytes_to_end ++
          loadBytes cb.buffer 0 (to_read - bytes_to_end)
      ({ cb with tail := (cb.tail + to_read) % cb.size,
                 count := cb.count - to_read }, out)

/-- circular_buffer_space_get (circular_buffers.c:183-194). -/
def circular_buffer_space_get (cb : circular_buffer) : Nat := cb.size - cb.count

/-- circular_buffer_size_get (circular_buffers.c:196-207). -/
def circular_buffer_size_get (cb : circular_buffer) : Nat := cb.count

/-- The structural invariant of an initialized ring. -/
structure Inv (cb : circular_buffer) : Prop where
  hsize : 0 < cb.size
  hhead : cb.head < cb.size
  htail : cb.tail < cb.size
  hcount : cb.count ≤ cb.size
  hlink : cb.head = (cb.tail + cb.count) % cb.size

/-- Abstraction function: the byte queue currently held by the ring. -/
def contents (cb : circular_buffer) : List Nat :=
  (List.range cb.count).map fun i => cb.buffer ((cb.tail + i) % cb.size)

theorem storeBytes_out (data : List Nat) (buf : Nat → Nat) (pos j : Nat)
    (h : j < pos ∨ pos + data.length ≤ j) : storeBytes buf pos data j = buf j := by
  induction data generalizing buf pos with
  | nil => rfl
  | cons b rest ih =>
    have hlen : ∀ hh : pos + (b :: rest).length ≤ j, pos + 1 + rest.length ≤ j := by
      intro hh; simp only [List.length_cons] at hh; omega
    have hj : j ≠ pos := by
      rcases h with h | h
      · omega
      · have := hlen h; omega
    have := ih (fun k => if k = pos then b else buf k) (pos + 1)
      (by rcases h with h | h
          · exact Or.inl (by omega)
          · exact Or.inr (hlen h))
    simpa [storeBytes, hj] using this

theorem storeBytes_in (data : List Nat) (buf : Nat → Nat) (pos j : Nat)
    (h1 : pos ≤ j) (h2 : j < pos + data.length) :
    storeBytes buf pos data j = data.getD (j - pos) 0 := by
  induction data generalizing buf pos with
  | nil => simp at h2; omega
  | cons b rest ih =>
    by_cases hj : j = pos
    · subst hj
      have hout : storeBytes (fun k => if k = j then b else buf k) (j + 1) rest j =
          (fun k => if k = j then b else buf k) j :=
        storeBytes_out rest _ (j + 1) j (Or.inl (by omega))
      simp [storeBytes, hout]
    · have h1' : pos + 1 ≤ j := by omega
      have h2' : j < pos + 1 + rest.length := by simp at h2 ⊢; omega
      have := ih (fun k => if k = pos then b else buf k) (pos + 1) h1' h2'
      have hidx : j - pos = (j - (pos + 1)) + 1 := by omega
      simp [storeBytes, this, hidx]

theorem loadBytes_length (buf : Nat → Nat) (pos len : Nat) :
    (loadBytes buf pos len).length = len := by
  simp [loadBytes]

/-- Reading a list through getD at consecutive offsets reproduces a
take-of-drop slice. -/
theorem map_range_getD (l : List Nat) (k m : Nat) (h : k + m ≤ l.length) :
    ((List.range m).map fun i => l.getD (k + i) 0) = (l.drop k).take m := by
  apply List.ext_getElem
  · simp; omega
  · intro i h1 h2
    simp only [List.getElem_map, List.getElem_range, List.getElem_take, List.getElem_drop]
    have hi : i < m := by simpa using h1
    have hki : k + i < l.length := by omega
    simp [List.getD_eq_getElem?_getD, List.getElem?_eq_getElem hki]

theorem take_getD (l : List Nat) (n j : Nat) (h : j < n) : (l.take n).getD j 0 = l.getD j 0 := by
  by_cases hj : j < l.length
  · have h1 : j < (l.take n).length := by simp [List.length_take]; omega
    rw [List.getD_eq_getElem?_getD, List.getD_eq_getElem?_getD,
      List.getElem?_eq_getElem h1, List.getElem?_eq_getElem hj]
    simp [List.getElem_take]
  · have h1 : ¬ j < (l.take n).length := by simp [List.length_take]; omega
    rw [List.getD_eq_getElem?_getD, List.getD_eq_getElem?_getD,
      List.getElem?_eq_none (by omega), List.getElem?_eq_none (by simp at h1 ⊢; omega)]

theorem drop_getD (l : List Nat) (k j : Nat) : (l.drop k).getD j 0 = l.getD (k + j) 0 := by
  rw [List.getD_eq_getElem?_getD, List.getD_eq_getElem?_getD, List.getElem?_drop]

/-- The buffer produced by the split memcpy of circular_buffer_write, as a
standalone expression: n accepted bytes of data laid down starting at head,
wrapping at the physical end of the array. -/
def writeBuf (buf : Nat → Nat) (size head n : Nat) (data : List Nat) : Nat → Nat :=
  if n ≤ size - head then storeBytes buf head (data.take n)
  else storeBytes (storeBytes buf head (data.take (size - head))) 0
    ((data.drop (size - head)).take (n - (size - head)))

theorem writeBuf_new (buf : Nat → Nat) (size head n : Nat) (data : List Nat)
    (hh : head < size) (_hn : n ≤ size) (hlen : n ≤ data.length)
    (j : Nat) (hj : j < n) :
    writeBuf buf size head n data ((head + j) % size) = data.getD j 0 := by
  have hd2len : ((data.drop (size - head)).take (n - (size - head))).length = n - (size - head) := by
    simp [List.length_take, List.length_drop]; omega
  have hd1len : (data.take (size - head)).length = min (size - head) data.length := by
    simp [List.length_take]
  unfold writeBuf
  by_cases hcase : n ≤ size - head
  · rw [if_pos hcase, Nat.mod_eq_of_lt (by omega)]
    rw [storeBytes_in _ _ _ _ (by omega) (by simp [List.length_take]; omega)]
    have : head + j - head = j := by omega
    rw [this, take_getD _ _ _ hj]
  · rw [if_neg hcase]
    by_cases hjB : j < size - head
    · rw [Nat.mod_eq_of_lt (by omega)]
      rw [storeBytes_out _ _ _ _ (Or.inr (by rw [hd2len]; omega))]
      rw [storeBytes_in _ _ _ _ (by omega) (by rw [hd1len]; omega)]
      have : head + j - head = j := by omega
      rw [this, take_getD _ _ _ (by omega)]
    · have hlt2 : head + j < 2 * size := by omega
      have hge : ¬ head + j < size := by omega
      have hmod : (head + j) % size = j - (size - head) := by
        rw [Nat.mod_eq_sub_mod (by omega), Nat.mod_eq_of_lt (by omega)]
        omega
      rw [hmod, storeBytes_in _ _ _ _ (by omega) (by rw [hd2len]; omega)]
      have h0 : j - (size - head) - 0 = j - (size - head) := by omega
      rw [h0, take_getD _ _ _ (by omega), drop_getD]
      have : size - head + (j - (size - head)) = j := by omega
      rw [this]

theorem writeBuf_old (buf : Nat → Nat) (size head n : Nat) (data : List Nat)
    (hh : head < size) (hn : n ≤ size) (hlen : n ≤ data.length)
    (p : Nat) (hp : p < size) (hnot : ∀ j, j < n → p ≠ (head + j) % size) :
    writeBuf buf size head n data p = buf p := by
  have hd2len : ((data.drop (size - head)).take (n - (size - head))).length = n - (size - head) := by
    simp [List.length_take, List.length_drop]; omega
  have hd1len : (data.take (size - head)).length = min (size - head) data.length := by
    simp [List.length_take]
  unfold writeBuf
  by_cases hcase : n ≤ size - head
  · rw [if_pos hcase]
    apply storeBytes_out
    rcases Nat.lt_or_ge p head with h | h
    · exact Or.inl h
    · refine Or.inr ?_
      rw [List.length_take]
      by_cases hlt : p < head + n
      · exact absurd (by rw [Nat.mod_eq_of_lt (by omega)]; omega)
          (hnot (p - head) (by omega))
      · omega
  · rw [if_neg hcase]
    have hout1 : n - (size - head) ≤ p := by
      by_contra hc
      exact hnot (size - head + p) (by omega)
        (by rw [show head + (size - head + p) = size + p by omega,
                Nat.add_mod_left, Nat.mod_eq_of_lt hp])
    have hout2 : p < head := by
      by_contra hc
      exact hnot (p - head) (by omega)
        (by rw [Nat.mod_eq_of_lt (by omega)]; omega)
    rw [storeBytes_out _ _ _ _ (Or.inr (by rw [hd2len]; omega))]
    exact storeBytes_out _ _ _ _ (Or.inl hout2)

theorem old_index_free (size tail count n : Nat) (hn : count + n ≤ size)
    (i : Nat) (hi : i < count) (j : Nat) (hj : j < n) :
    (tail + i) % size ≠ ((tail + count) % size + j) % size := by
  intro h
  rw [Nat.mod_add_mod, Nat.add_assoc] at h
  have h2 : i ≡ count + j [MOD size] := Nat.ModEq.add_left_cancel' tail h
  have h3 : i % size = (count + j) % size := h2
  rw [Nat.mod_eq_of_lt (by omega), Nat.mod_eq_of_lt (by omega)] at h3
  omega

theorem circular_buffer_write_eq (cb : circular_buffer) (data : List Nat)
    (hd : data.length ≠ 0) (hnz : min data.length (cb.size - cb.count) ≠ 0) :
    circular_buffer_write cb data =
      ({ cb with
         buffer := writeBuf cb.buffer cb.size cb.head (min data.length (cb.size - cb.count)) data,
         head := (cb.head + min data.length (cb.size - cb.count)) % cb.size,
         count := cb.count + min data.length (cb.size - cb.count) },
       min data.length (cb.size - cb.count)) := by
  have hmin : (if data.length > cb.size - cb.count then cb.size - cb.count else data.length) =
      min data.length (cb.size - cb.count) := by split <;> omega
  simp only [circular_buffer_write, hmin, if_neg hd, if_neg hnz]
  rfl

theorem contents_length (cb : circular_buffer) : (contents cb).length = cb.count := by
  simp [contents]

theorem circular_buffer_write_spec (cb : circular_buffer) (data : List Nat) (hInv : Inv cb) :
    (circular_buffer_write cb data).2 = min data.length (cb.size - cb.count) ∧
    Inv (circular_buffer_write cb data).1 ∧
    (circular_buffer_write cb data).1.size = cb.size ∧
    (circular_buffer_write cb data).1.tail = cb.tail ∧
    contents (circular_buffer_write cb data).1 =
      contents cb ++ data.take (min data.length (cb.size - cb.count)) := by
  obtain ⟨hsz, hh, ht, hc, hl⟩ := hInv
  by_cases hd : data.length = 0
  · have h0 : data = [] := List.length_eq_zero.mp hd
    simp [circular_buffer_write, h0, contents]
    exact ⟨hsz, hh, ht, hc, hl⟩
  by_cases hnz : min data.length (cb.size - cb.count) = 0
  · have heq : circular_buffer_write cb data = (cb, 0) := by
      have hmin : (if data.length > cb.size - cb.count then cb.size - cb.count else data.length) =
          min data.length (cb.size - cb.count) := by split <;> omega
      simp only [circular_buffer_write, hmin, if_neg hd, if_pos hnz]
    rw [heq]
    exact ⟨by simp [hnz], ⟨hsz, hh, ht, hc, hl⟩, rfl, rfl, by simp [hnz]⟩
  rw [circular_buffer_write_eq cb data hd hnz]
  set n := min data.length (cb.size - cb.count) with hn
  have hnle : n ≤ data.length := by omega
  have hns : cb.count + n ≤ cb.size := by omega
  refine ⟨rfl, ⟨hsz, Nat.mod_lt _ hsz, ht, hns, ?_⟩, rfl, rfl, ?_⟩
  · show (cb.head + n) % cb.size = (cb.tail + (cb.count + n)) % cb.size
    rw [hl, Nat.mod_add_mod, Nat.add_assoc]
  · apply List.ext_getElem
    · simp [contents, List.length_take]
      omega
    · intro i h1 h2
      simp only [contents, List.getElem_map, List.getElem_range]
      have hi : i < cb.count + n := by simpa [contents] using h1
      by_cases hio : i < cb.count
      · rw [writeBuf_old cb.buffer cb.size cb.head n data hh (by omega) hnle
          ((cb.tail + i) % cb.size) (Nat.mod_lt _ hsz)
          (fun j hj => by rw [hl]; exact old_index_free cb.size cb.tail cb.count n hns i hio j hj)]
        rw [List.getElem_append_left (by simp [contents]; omega)]
        simp [contents]
      · have hrw : (cb.tail + i) % cb.size = ((cb.head + (i - cb.count)) % cb.size) := by
          rw [hl, Nat.mod_add_mod, Nat.add_assoc,
            show cb.count + (i - cb.count) = i by omega]
        rw [hrw, writeBuf_new cb.buffer cb.size cb.head n data hh (by omega) hnle
          (i - cb.count) (by omega)]
        rw [List.getElem_append_right (by simp [contents]; omega)]
        simp only [List.length_map, List.length_range]
        have hh : i - cb.count < (data.take n).length := by
          simp [List.length_take]
          omega
        have hgd : (data.take n).get ⟨i - cb.count, hh⟩ = data.getD (i - cb.count) 0 := by
          rw [List.getD_eq_getElem?_getD, List.getElem?_eq_getElem (by omega)]
          simp [List.getElem_take]
        exact hgd.symm

theorem circular_buffer_read_spec (cb : circular_buffer) (len : Nat) (hInv : Inv cb) :
    (circular_buffer_read cb len).2 = (contents cb).take (min len cb.count) ∧
    Inv (circular_buffer_read cb len).1 ∧
    (circular_buffer_read cb len).1.size = cb.size ∧
    contents (circular_buffer_read cb len).1 = (contents cb).drop (min len cb.count) := by
  obtain ⟨hsz, hh, ht, hc, hl⟩ := hInv
  by_cases hlen : len = 0
  · have heq : circular_buffer_read cb len = (cb, []) := by
      simp [circular_buffer_read, hlen]
    rw [heq]
    exact ⟨by simp [hlen], ⟨hsz, hh, ht, hc, hl⟩, rfl, by simp [hlen]⟩
  by_cases hm0 : min len cb.count = 0
  · have hcnt : cb.count = 0 := by omega
    have heq : circular_buffer_read cb len = (cb, []) := by
      simp only [circular_buffer_read, if_neg hlen]
      have h4 : (if len > cb.count then cb.count else len) = 0 := by split <;> omega
      simp [h4]
    rw [heq]
    refine ⟨by simp [hm0], ⟨hsz, hh, ht, hc, hl⟩, rfl, by simp [hm0]⟩
  have hmin : (if len > cb.count then cb.count else len) = min len cb.count := by
    split <;> omega
  set m := min len cb.count with hmdef
  have hmc : m ≤ cb.count := by omega
  have heq : circular_buffer_read cb len =
      ({ cb with tail := (cb.tail + m) % cb.size, count := cb.count - m },
       if m ≤ cb.size - cb.tail then loadBytes cb.buffer cb.tail m
       else loadBytes cb.buffer cb.tail (cb.size - cb.tail) ++
         loadBytes cb.buffer 0 (m - (cb.size - cb.tail))) := by
    simp only [circular_buffer_read, if_neg hlen, hmin, if_neg hm0]
  have hout : (if m ≤ cb.size - cb.tail then loadBytes cb.buffer cb.tail m
       else loadBytes cb.buffer cb.tail (cb.size - cb.tail) ++
         loadBytes cb.buffer 0 (m - (cb.size - cb.tail))) = (contents cb).take m := by
    by_cases hcase : m ≤ cb.size - cb.tail
    · rw [if_pos hcase]
      apply List.ext_getElem
      · simp [loadBytes, contents, List.length_take]; omega
      · intro i h1 h2
        have him : i < m := by simpa [loadBytes] using h1
        simp only [List.getElem_take, loadBytes, List.getElem_map, List.getElem_range, contents]
        rw [Nat.mod_eq_of_lt (by omega)]
    · rw [if_neg hcase]
      apply List.ext_getElem
      · simp [loadBytes, contents, List.length_take]; omega
      · intro i h1 h2
        have him : i < m := by simp [loadBytes] at h1; omega
        by_cases hiB : i < cb.size - cb.tail
        · rw [List.getElem_append_left (by simp [loadBytes]; omega)]
          simp only [List.getElem_take, loadBytes, List.getElem_map, List.getElem_range, contents]
          rw [Nat.mod_eq_of_lt (by omega)]
        · rw [List.getElem_append_right (by simp [loadBytes]; omega)]
          simp only [List.getElem_take, loadBytes, List.getElem_map, List.getElem_range,
            loadBytes_length, contents]
          have hmod : (cb.tail + i) % cb.size = i - (cb.size - cb.tail) := by
            rw [Nat.mod_eq_sub_mod (by omega), Nat.mod_eq_of_lt (by omega)]
            omega
          rw [hmod]
          simp
  rw [heq, hout]
  refine ⟨rfl, ⟨hsz, hh, Nat.mod_lt _ hsz, by show cb.count - m ≤ cb.size; omega, ?_⟩, rfl, ?_⟩
  · show cb.head = ((cb.tail + m) % cb.size + (cb.count - m)) % cb.size
    rw [Nat.mod_add_mod, Nat.add_assoc, show m + (cb.count - m) = cb.count by omega, hl]
  · apply List.ext_getElem
    · simp [contents]
    · intro i h1 h2
      simp only [contents, List.getElem_map, List.getElem_range]
      rw [List.getElem_drop]
      simp only [contents, List.getElem_map, List.getElem_range]
      rw [Nat.mod_add_mod, Nat.add_assoc]

/-- A client operation on the ring: a non-blocking write of a byte list or a
non-blocking read of a requested length. -/
inductive CBOp where
  | write (data : List Nat)
  | read (len : Nat)

/-- Run one operation; returns the new state, the bytes the write accepted,
and the bytes the read returned. -/
def runOp (cb : circular_buffer) : CBOp → circular_buffer × List Nat × List Nat
  | .write data =>
    let r := circular_buffer_write cb data
    (r.1, data.take r.2, [])
  | .read len =>
    let r := circular_buffer_read cb len
    (r.1, [], r.2)

/-- Run a sequence of operations, concatenating accepted bytes and read bytes. -/
def runOps (cb : circular_buffer) : List CBOp → circular_buffer × List Nat × List Nat
  | [] => (cb, [], [])
  | op :: ops =>
    let r := runOp cb op
    let s := runOps r.1 ops
    (s.1, r.2.1 ++ s.2.1, r.2.2 ++ s.2.2)

theorem runOps_spec (ops : List CBOp) (cb : circular_buffer) (hInv : Inv cb) :
    Inv (runOps cb ops).1 ∧ (runOps cb ops).1.size = cb.size ∧
    (runOps cb ops).2.2 ++ contents (runOps cb ops).1 = contents cb ++ (runOps cb ops).2.1 := by
  induction ops generalizing cb with
  | nil => simpa [runOps] using hInv
  | cons op ops ih =>
    cases op with
    | write data =>
      obtain ⟨hret, hinv1, hsz1, _, hcont1⟩ := circular_buffer_write_spec cb data hInv
      obtain ⟨hinv2, hsz2, htrace⟩ := ih (circular_buffer_write cb data).1 hinv1
      refine ⟨hinv2, by simp [runOps, runOp]; rw [hsz2, hsz1], ?_⟩
      simp only [runOps, runOp]
      rw [List.nil_append, htrace, hcont1, hret, List.append_assoc]
    | read len =>
      obtain ⟨hout, hinv1, hsz1, hcont1⟩ := circular_buffer_read_spec cb len hInv
      obtain ⟨hinv2, hsz2, htrace⟩ := ih (circular_buffer_read cb len).1 hinv1
      refine ⟨hinv2, by simp [runOps, runOp]; rw [hsz2, hsz1], ?_⟩
      simp only [runOps, runOp]
      rw [List.nil_append, List.append_assoc, htrace, hcont1, hout,
        ← List.append_assoc, List.take_append_drop]

end CircularBuffers

/-- C1: For every sequence of circular_buffer_write and circular_buffer_read
calls on an initialized buffer, the bytes returned by reads followed by the
bytes still held equal, byte for byte and in order, the bytes accepted by
writes (each write accepts exactly what fits in the remaining capacity); in
particular once the buffer is drained the concatenation of all reads equals
the concatenation of all accepted writes, including across head/tail
wraparound. -/
theorem circular_buffer_fifo_exact (backing : Nat → Nat) (size : Nat)
    (cb0 : CircularBuffers.circular_buffer) (ops : List CircularBuffers.CBOp)
    (hinit : CircularBuffers.circular_buffer_init backing size = some cb0) :
    (CircularBuffers.runOps cb0 ops).2.2 ++
      CircularBuffers.contents (CircularBuffers.runOps cb0 ops).1 =
      (CircularBuffers.runOps cb0 ops).2.1 ∧
    ((CircularBuffers.runOps cb0 ops).1.count = 0 →
      (CircularBuffers.runOps cb0 ops).2.2 = (CircularBuffers.runOps cb0 ops).2.1) := by
  have hsz : size ≠ 0 := by
    intro h
    simp [CircularBuffers.circular_buffer_init, h] at hinit
  have hcb0 : cb0 = { buffer := backing, size := size, head := 0, tail := 0, count := 0 } := by
    simp [CircularBuffers.circular_buffer_init, hsz] at hinit
    exact hinit.symm
  have hinv : CircularBuffers.Inv cb0 := by
    rw [hcb0]
    exact ⟨Nat.pos_of_ne_zero hsz, Nat.pos_of_ne_zero hsz, Nat.pos_of_ne_zero hsz,
      Nat.zero_le _, by simp⟩
  have hempty : CircularBuffers.contents cb0 = [] := by
    rw [hcb0]; simp [CircularBuffers.contents]
  obtain ⟨hinvf, _, htrace⟩ := CircularBuffers.runOps_spec ops cb0 hinv
  rw [hempty, List.nil_append] at htrace
  refine ⟨htrace, fun hdrained => ?_⟩
  have hfin : CircularBuffers.contents (CircularBuffers.runOps cb0 ops).1 = [] := by
    have := CircularBuffers.contents_length (CircularBuffers.runOps cb0 ops).1
    rw [hdrained] at this
    exact List.length_eq_zero.mp this
  rw [hfin, List.append_nil] at htrace
  exact htrace

/-- C1 witness: capacity 4 with a wrapping schedule; write 3, read 2, write 3
(which wraps past the physical end), read 4 drains the ring and the read
stream equals the accepted write stream. -/
theorem circular_buffer_fifo_exact_witness :
    CircularBuffers.circular_buffer_init (fun _ => 0) 4 =
      some { buffer := fun _ => 0, size := 4, head := 0, tail := 0, count := 0 } ∧
    ((CircularBuffers.runOps
        { buffer := fun _ => 0, size := 4, head := 0, tail := 0, count := 0 }
        [.write [1, 2, 3], .read 2, .write [4, 5, 6], .read 4]).1.count = 0 →
      (CircularBuffers.runOps
        { buffer := fun _ => 0, size := 4, head := 0, tail := 0, count := 0 }
        [.write [1, 2, 3], .read 2, .write [4, 5, 6], .read 4]).2.2 =
      (CircularBuffers.runOps
        { buffer := fun _ => 0, size := 4, head := 0, tail := 0, count := 0 }
        [.write [1, 2, 3], .read 2, .write [4, 5, 6], .read 4]).2.1) :=
  ⟨rfl,
   (circular_buffer_fifo_exact (fun _ => 0) 4
      { buffer := fun _ => 0, size := 4, head := 0, tail := 0, count := 0 }
      [.write [1, 2, 3], .read 2, .write [4, 5, 6], .read 4] rfl).2⟩

/-- C2: For every operation sequence on an initialized buffer of capacity C,
the state invariant holds at every point (choosing the sequence as any prefix
covers every observation point): count is at most C, head and tail lie in
[0, C), and circular_buffer_size_get plus circular_buffer_space_get is C. -/
theorem circular_buffer_capacity_invariant (backing : Nat → Nat) (size : Nat)
    (cb0 : CircularBuffers.circular_buffer) (ops : List CircularBuffers.CBOp)
    (hinit : CircularBuffers.circular_buffer_init backing size = some cb0) :
    (CircularBuffers.runOps cb0 ops).1.count ≤ size ∧
    (CircularBuffers.runOps cb0 ops).1.head < size ∧
    (CircularBuffers.runOps cb0 ops).1.tail < size ∧
    CircularBuffers.circular_buffer_size_get (CircularBuffers.runOps cb0 ops).1 +
      CircularBuffers.circular_buffer_space_get (CircularBuffers.runOps cb0 ops).1 = size := by
  have hsz : size ≠ 0 := by
    intro h
    simp [CircularBuffers.circular_buffer_init, h] at hinit
  have hcb0 : cb0 = { buffer := backing, size := size, head := 0, tail := 0, count := 0 } := by
    simp [CircularBuffers.circular_buffer_init, hsz] at hinit
    exact hinit.symm
  have hinv : CircularBuffers.Inv cb0 := by
    rw [hcb0]
    exact ⟨Nat.pos_of_ne_zero hsz, Nat.pos_of_ne_zero hsz, Nat.pos_of_ne_zero hsz,
      Nat.zero_le _, by simp⟩
  obtain ⟨⟨h1, h2, h3, h4, h5⟩, hszf, _⟩ := CircularBuffers.runOps_spec ops cb0 hinv
  have hs : (CircularBuffers.runOps cb0 ops).1.size = size := by rw [hszf, hcb0]
  rw [hs] at h1 h2 h3 h4
  refine ⟨h4, h2, h3, ?_⟩
  simp only [CircularBuffers.circular_buffer_size_get, CircularBuffers.circular_buffer_space_get]
  rw [hs]
  omega

/-- C2 witness: a concrete schedule on a capacity-3 ring. -/
theorem circular_buffer_capacity_invariant_witness :
    CircularBuffers.circular_buffer_init (fun _ => 7) 3 =
      some { buffer := fun _ => 7, size := 3, head := 0, tail := 0, count := 0 } ∧
    CircularBuffers.circular_buffer_size_get
        (CircularBuffers.runOps
          { buffer := fun _ => 7, size := 3, head := 0, tail := 0, count := 0 }
          [.write [9, 9], .read 1, .write [8, 8, 8]]).1 +
      CircularBuffers.circular_buffer_space_get
        (CircularBuffers.runOps
          { buffer := fun _ => 7, size := 3, head := 0, tail := 0, count := 0 }
          [.write [9, 9], .read 1, .write [8, 8, 8]]).1 = 3 :=
  ⟨rfl,
   (circular_buffer_capacity_invariant (fun _ => 7) 3
      { buffer := fun _ => 7, size := 3, head := 0, tail := 0, count := 0 }
      [.write [9, 9], .read 1, .write [8, 8, 8]] rfl).2.2.2⟩

namespace WavDecoder

/-- Little-endian 16-bit read at a byte offset (wav_decoder.c memcpy of 2
bytes into a uint16_t).  Out-of-range offsets read as 0; every verified run
stays in bounds except where a theorem exhibits the out-of-bounds access. -/
def le16 (data : List Nat) (off : Nat) : Nat :=
  data.getD off 0 + 256 * data.getD (off + 1) 0

/-- Little-endian 32-bit read at a byte offset (memcpy of 4 bytes into a
uint32_t). -/
def le32 (data : List Nat) (off : Nat) : Nat :=
  data.getD off 0 + 256 * data.getD (off + 1) 0 + 65536 * data.getD (off + 2) 0 +
    16777216 * data.getD (off + 3) 0

/-- struct audio_format_info (wav_decoder.h). -/
structure audio_format_info where
  format_tag : Nat
  channels : Nat
  sample_rate : Nat
  bytes_per_sec : Nat
  block_align : Nat
  bits_per_sample : Nat
deriving DecidableEq

/-- struct wav_decoder (wav_decoder.h). -/
structure wav_decoder where
  data : List Nat
  data_len : Nat
  position : Nat
  format : audio_format_info
  audio_data_offset : Nat
  audio_data_size : Nat
  is_initialized : Bool
deriving DecidableEq

/-- The zeroed decoder produced by memset in wav_decoder_init, with the data
reference stored. -/
def zeroDecoder (data : List Nat) : wav_decoder :=
  { data := data, data_len := data.length, position := 0,
    format := ⟨0, 0, 0, 0, 0, 0⟩,
    audio_data_offset := 0, audio_data_size := 0, is_initialized := false }

/-- size_t subtraction: Nat subtraction that wraps modulo 2^64, mirroring the
unsigned arithmetic of the C expression a - b on a 64-bit build (on the
32-bit target the same wrap occurs modulo 2^32). -/
def sub_size (a b : Nat) : Nat :=
  (a + 18446744073709551616 - b % 18446744073709551616) % 18446744073709551616

/-- One advance of the sub-chunk walker (wav_decoder.c:91-99): move the
pointer 8 + chunk_size bytes (plus one pad byte when chunk_size is odd) and
subtract the same amount from remaining with size_t wraparound. -/
def chunkAdvance (off remaining chunk_size : Nat) : Nat × Nat :=
  let off2 := off + 8 + chunk_size
  let rem2 := sub_size remaining (8 + chunk_size)
  if chunk_size % 2 = 1 then (off2 + 1, sub_size rem2 1) else (off2, rem2)

/-- The sub-chunk walking loop of wav_decoder_init (wav_decoder.c:54-100).
The fuel argument bounds the number of iterations; every execution analysed
below terminates well inside fuel = data.length (an in-bounds iteration
consumes at least 8 bytes of remaining). -/
def chunkWalk (data : List Nat) : Nat → Nat → Nat → wav_decoder → Except Int wav_decoder
  | 0, _, _, d => .ok d
  | fuel + 1, off, remaining, d =>
    if remaining < 8 then .ok d
    else
      let chunk_id := le32 data off
      let chunk_size := le32 data (off + 4)
      if chunk_id = 0x20746d66 then
        if chunk_size < 16 then .error (-22)
        else
          let d2 := { d with format :=
            { format_tag := le16 data (off + 8),
              channels := le16 data (off + 10),
              sample_rate := le32 data (off + 12),
              bytes_per_sec := le32 data (off + 16),
              block_align := le16 data (off + 20),
              bits_per_sample := le16 data (off + 22) } }
          let a := chunkAdvance off remaining chunk_size
          chunkWalk data fuel a.1 a.2 d2
      else if chunk_id = 0x61746164 then
        .ok { d with audio_data_offset := off + 8, audio_data_size := chunk_size }
      else
        let a := chunkAdvance off remaining chunk_size
        chunkWalk data fuel a.1 a.2 d

/-- wav_decoder_init (wav_decoder.c:18-128).  Returns .error (-22) (-EINVAL)
for empty input, input under 44 bytes, a bad RIFF or WAVE marker, a fmt
sub-chunk under 16 bytes or a missing data sub-chunk, and .error (-134)
(-ENOTSUP) for a non-PCM format tag, a channel count outside 1..2 or a bit
depth outside 8/16. -/
def wav_decoder_init (data : List Nat) : Except Int wav_decoder :=
  if data.length = 0 then .error (-22)
  else if data.length < 44 then .error (-22)
  else if ¬ (data.getD 0 0 = 82 ∧ data.getD 1 0 = 73 ∧
             data.getD 2 0 = 70 ∧ data.getD 3 0 = 70) then .error (-22)
  else if ¬ (data.getD 8 0 = 87 ∧ data.getD 9 0 = 65 ∧
             data.getD 10 0 = 86 ∧ data.getD 11 0 = 69) then .error (-22)
  else
    match chunkWalk data data.length 12 (data.length - 12) (zeroDecoder data) with
    | .error e => .error e
    | .ok d1 =>
      if d1.audio_data_offset = 0 then .error (-22)
      else if d1.format.format_tag ≠ 1 then .error (-134)
      else if d1.format.channels = 0 ∨ d1.format.channels > 2 then .error (-134)
      else if d1.format.bits_per_sample ≠ 8 ∧ d1.format.bits_per_sample ≠ 16 then .error (-134)
      else .ok { d1 with is_initialized := true, position := d1.audio_data_offset }

/-- wav_decoder_get_format (wav_decoder.c:130-138). -/
def wav_decoder_get_format (d : wav_decoder) : Except Int audio_format_info :=
  if d.is_initialized = false then .error (-22) else .ok d.format

/-- wav_decoder_read (wav_decoder.c:140-165): copy min(buffer_size,
remaining-in-region) bytes from the recorded audio region at the cursor. -/
def wav_decoder_read (d : wav_decoder) (buffer_size : Nat) : wav_decoder × List Nat :=
  if buffer_size = 0 ∨ d.is_initialized = false then (d, [])
  else
    let data_end := d.audio_data_offset + d.audio_data_size
    if data_end ≤ d.position then (d, [])
    else
      let remaining := data_end - d.position
      let to_read := if buffer_size > remaining then remaining else buffer_size
      (({ d with position := d.position + to_read }),
       (List.range to_read).map fun i => d.data.getD (d.position + i) 0)

/-- wav_decoder_is_eof (wav_decoder.c:194-201). -/
def wav_decoder_is_eof (d : wav_decoder) : Bool :=
  if d.is_initialized = false then true
  else decide (d.audio_data_offset + d.audio_data_size ≤ d.position)

/-- wav_decoder_read_samples (wav_decoder.c:248-290), incremental feed mode.
Returns the updated decoder, the C return value, and when audio was
extracted the pair (offset of the returned sample pointer within the chunk,
returned samples_len). -/
def wav_decoder_read_samples (d : wav_decoder) (chunk : List Nat) :
    wav_decoder × Int × Option (Nat × Nat) :=
  let extract : wav_decoder → wav_decoder × Int × Option (Nat × Nat) := fun d2 =>
    let audio_start_in_chunk :=
      if d2.audio_data_offset < chunk.length then d2.audio_data_offset else 0
    if audio_start_in_chunk < chunk.length then
      (d2, ((chunk.length - audio_start_in_chunk : Nat) : Int),
       some (audio_start_in_chunk, chunk.length - audio_start_in_chunk))
    else (d2, 0, none)
  if d.is_initialized then extract d
  else
    match wav_decoder_init chunk with
    | .error _ => (d, 0, none)
    | .ok d2 => extract d2

/-- Successive wav_decoder_read calls with the given request sizes; returns
the final decoder and the concatenation of all bytes returned. -/
def wav_read_seq (d : wav_decoder) : List Nat → wav_decoder × List Nat
  | [] => (d, [])
  | n :: ns =>
    let r := wav_decoder_read d n
    let s := wav_read_seq r.1 ns
    (s.1, r.2 ++ s.2)

/-- Two-byte little-endian encoding. -/
def le16bytes (n : Nat) : List Nat := [n % 256, n / 256 % 256]

/-- Four-byte little-endian encoding. -/
def le32bytes (n : Nat) : List Nat :=
  [n % 256, n / 256 % 256, n / 65536 % 256, n / 16777216 % 256]

/-- A synthetically constructed WAV byte buffer: RIFF header, a 16-byte fmt
sub-chunk with the given format tag, channel count, sample rate and bit
depth, then a data sub-chunk holding payload. -/
def mkWav (tag ch rate bits : Nat) (payload : List Nat) : List Nat :=
  [82, 73, 70, 70] ++ le32bytes (36 + payload.length) ++ [87, 65, 86, 69] ++
  [102, 109, 116, 32] ++ le32bytes 16 ++
  le16bytes tag ++ le16bytes ch ++ le32bytes rate ++
  le32bytes (rate * (bits / 8) * ch) ++ le16bytes ((bits / 8) * ch) ++ le16bytes bits ++
  [100, 97, 116, 97] ++ le32bytes payload.length ++ payload

end WavDecoder

namespace WavDecoder

theorem mkWav_length (t c r b : Nat) (p : List Nat) :
    (mkWav t c r b p).length = 44 + p.length := by
  simp [mkWav, le16bytes, le32bytes]
  omega

theorem mkWav_riff (t c r b : Nat) (p : List Nat) :
    (mkWav t c r b p).getD 0 0 = 82 ∧ (mkWav t c r b p).getD 1 0 = 73 ∧
    (mkWav t c r b p).getD 2 0 = 70 ∧ (mkWav t c r b p).getD 3 0 = 70 :=
  ⟨by simp [mkWav, le16bytes, le32bytes], by simp [mkWav, le16bytes, le32bytes],
   by simp [mkWav, le16bytes, le32bytes], by simp [mkWav, le16bytes, le32bytes]⟩

theorem mkWav_wave (t c r b : Nat) (p : List Nat) :
    (mkWav t c r b p).getD 8 0 = 87 ∧ (mkWav t c r b p).getD 9 0 = 65 ∧
    (mkWav t c r b p).getD 10 0 = 86 ∧ (mkWav t c r b p).getD 11 0 = 69 :=
  ⟨by simp [mkWav, le16bytes, le32bytes], by simp [mkWav, le16bytes, le32bytes],
   by simp [mkWav, le16bytes, le32bytes], by simp [mkWav, le16bytes, le32bytes]⟩

theorem mkWav_fmt_id (t c r b : Nat) (p : List Nat) : le32 (mkWav t c r b p) 12 = 544501094 := by
  have h0 : (mkWav t c r b p).getD 12 0 = 102 := by simp [mkWav, le16bytes, le32bytes]
  have h1 : (mkWav t c r b p).getD 13 0 = 109 := by simp [mkWav, le16bytes, le32bytes]
  have h2 : (mkWav t c r b p).getD 14 0 = 116 := by simp [mkWav, le16bytes, le32bytes]
  have h3 : (mkWav t c r b p).getD 15 0 = 32 := by simp [mkWav, le16bytes, le32bytes]
  unfold le32
  rw [show (12 : Nat) + 1 = 13 from rfl, show (12 : Nat) + 2 = 14 from rfl,
    show (12 : Nat) + 3 = 15 from rfl, h0, h1, h2, h3]

theorem mkWav_fmt_size (t c r b : Nat) (p : List Nat) : le32 (mkWav t c r b p) 16 = 16 := by
  have h0 : (mkWav t c r b p).getD 16 0 = 16 := by simp [mkWav, le16bytes, le32bytes]
  have h1 : (mkWav t c r b p).getD 17 0 = 0 := by simp [mkWav, le16bytes, le32bytes]
  have h2 : (mkWav t c r b p).getD 18 0 = 0 := by simp [mkWav, le16bytes, le32bytes]
  have h3 : (mkWav t c r b p).getD 19 0 = 0 := by simp [mkWav, le16bytes, le32bytes]
  unfold le32
  rw [show (16 : Nat) + 1 = 17 from rfl, show (16 : Nat) + 2 = 18 from rfl,
    show (16 : Nat) + 3 = 19 from rfl, h0, h1, h2, h3]

theorem mkWav_tag (t c r b : Nat) (p : List Nat) : le16 (mkWav t c r b p) 20 = t % 65536 := by
  have h : le16 (mkWav t c r b p) 20 = t % 256 + 256 * (t / 256 % 256) := by
    simp [mkWav, le16, le16bytes, le32bytes]
  rw [h]; omega

theorem mkWav_channels (t c r b : Nat) (p : List Nat) :
    le16 (mkWav t c r b p) 22 = c % 65536 := by
  have h : le16 (mkWav t c r b p) 22 = c % 256 + 256 * (c / 256 % 256) := by
    simp [mkWav, le16, le16bytes, le32bytes]
  rw [h]; omega

theorem mkWav_rate (t c r b : Nat) (p : List Nat) :
    le32 (mkWav t c r b p) 24 = r % 4294967296 := by
  have h : le32 (mkWav t c r b p) 24 = r % 256 + 256 * (r / 256 % 256) +
      65536 * (r / 65536 % 256) + 16777216 * (r / 16777216 % 256) := by
    simp [mkWav, le32, le16bytes, le32bytes]
  rw [h]; omega

theorem mkWav_bps (t c r b : Nat) (p : List Nat) :
    le32 (mkWav t c r b p) 28 = (r * (b / 8) * c) % 4294967296 := by
  have h : le32 (mkWav t c r b p) 28 = (r * (b / 8) * c) % 256 +
      256 * ((r * (b / 8) * c) / 256 % 256) + 65536 * ((r * (b / 8) * c) / 65536 % 256) +
      16777216 * ((r * (b / 8) * c) / 16777216 % 256) := by
    simp [mkWav, le32, le16bytes, le32bytes]
  rw [h]; omega

theorem mkWav_align (t c r b : Nat) (p : List Nat) :
    le16 (mkWav t c r b p) 32 = ((b / 8) * c) % 65536 := by
  have h : le16 (mkWav t c r b p) 32 = ((b / 8) * c) % 256 +
      256 * (((b / 8) * c) / 256 % 256) := by
    simp [mkWav, le16, le16bytes, le32bytes]
  rw [h]; omega

theorem mkWav_bits (t c r b : Nat) (p : List Nat) : le16 (mkWav t c r b p) 34 = b % 65536 := by
  have h : le16 (mkWav t c r b p) 34 = b % 256 + 256 * (b / 256 % 256) := by
    simp [mkWav, le16, le16bytes, le32bytes]
  rw [h]; omega

theorem mkWav_data_id (t c r b : Nat) (p : List Nat) :
    le32 (mkWav t c r b p) 36 = 1635017060 := by
  have h0 : (mkWav t c r b p).getD 36 0 = 100 := by simp [mkWav, le16bytes, le32bytes]
  have h1 : (mkWav t c r b p).getD 37 0 = 97 := by simp [mkWav, le16bytes, le32bytes]
  have h2 : (mkWav t c r b p).getD 38 0 = 116 := by simp [mkWav, le16bytes, le32bytes]
  have h3 : (mkWav t c r b p).getD 39 0 = 97 := by simp [mkWav, le16bytes, le32bytes]
  unfold le32
  rw [show (36 : Nat) + 1 = 37 from rfl, show (36 : Nat) + 2 = 38 from rfl,
    show (36 : Nat) + 3 = 39 from rfl, h0, h1, h2, h3]

theorem mkWav_data_size (t c r b : Nat) (p : List Nat) :
    le32 (mkWav t c r b p) 40 = p.length % 4294967296 := by
  have h : le32 (mkWav t c r b p) 40 = p.length % 256 + 256 * (p.length / 256 % 256) +
      65536 * (p.length / 65536 % 256) + 16777216 * (p.length / 16777216 % 256) := by
    simp [mkWav, le32, le16bytes, le32bytes]
  rw [h]; omega

theorem sub_size_of_le (a b : Nat) (hb : b ≤ a) (ha : a < 18446744073709551616) :
    sub_size a b = a - b := by
  unfold sub_size
  omega

end WavDecoder

namespace WavDecoder

theorem mkWav_walk (t c r b : Nat) (p : List Nat) (hN : p.length < 4294967296) :
    chunkWalk (mkWav t c r b p) (44 + p.length) 12 (32 + p.length)
      (zeroDecoder (mkWav t c r b p)) =
    .ok { zeroDecoder (mkWav t c r b p) with
          format := { format_tag := t % 65536, channels := c % 65536,
                      sample_rate := r % 4294967296,
                      bytes_per_sec := (r * (b / 8) * c) % 4294967296,
                      block_align := ((b / 8) * c) % 65536,
                      bits_per_sample := b % 65536 },
          audio_data_offset := 44, audio_data_size := p.length } := by
  have hadv1 : chunkAdvance 12 (32 + p.length) 16 = (36, 8 + p.length) := by
    unfold chunkAdvance
    rw [if_neg (by norm_num), sub_size_of_le _ _ (by omega) (by omega)]
    simp only [Prod.mk.injEq]
    exact ⟨trivial, by omega⟩
  have hstep1 : chunkWalk (mkWav t c r b p) (44 + p.length) 12 (32 + p.length)
      (zeroDecoder (mkWav t c r b p)) =
      chunkWalk (mkWav t c r b p) (43 + p.length) 36 (8 + p.length)
        { zeroDecoder (mkWav t c r b p) with
          format := { format_tag := t % 65536, channels := c % 65536,
                      sample_rate := r % 4294967296,
                      bytes_per_sec := (r * (b / 8) * c) % 4294967296,
                      block_align := ((b / 8) * c) % 65536,
                      bits_per_sample := b % 65536 } } := by
    rw [show 44 + p.length = (43 + p.length) + 1 from by omega]
    simp only [chunkWalk]
    rw [if_neg (show ¬ (32 + p.length < 8) by omega)]
    rw [mkWav_fmt_id, mkWav_fmt_size, if_pos rfl, if_neg (by norm_num)]
    rw [mkWav_tag, mkWav_channels, mkWav_rate, mkWav_bps, mkWav_align, mkWav_bits, hadv1]
  have hstep2 : chunkWalk (mkWav t c r b p) (43 + p.length) 36 (8 + p.length)
      { zeroDecoder (mkWav t c r b p) with
        format := { format_tag := t % 65536, channels := c % 65536,
                    sample_rate := r % 4294967296,
                    bytes_per_sec := (r * (b / 8) * c) % 4294967296,
                    block_align := ((b / 8) * c) % 65536,
                    bits_per_sample := b % 65536 } } =
      .ok { zeroDecoder (mkWav t c r b p) with
            format := { format_tag := t % 65536, channels := c % 65536,
                        sample_rate := r % 4294967296,
                        bytes_per_sec := (r * (b / 8) * c) % 4294967296,
                        block_align := ((b / 8) * c) % 65536,
                        bits_per_sample := b % 65536 },
            audio_data_offset := 44, audio_data_size := p.length } := by
    rw [show 43 + p.length = (42 + p.length) + 1 from by omega]
    simp only [chunkWalk]
    rw [if_neg (show ¬ (8 + p.length < 8) by omega)]
    rw [mkWav_data_id, mkWav_data_size, if_neg (by norm_num), if_pos rfl,
      Nat.mod_eq_of_lt hN]
  rw [hstep1, hstep2]

end WavDecoder

namespace WavDecoder

/-- Evaluation of wav_decoder_init on the synthetic family: header checks
pass, the walk finds the fmt and data sub-chunks, and the result is decided
by the format validation order of wav_decoder.c:107-121. -/
theorem mkWav_init (t c r b : Nat) (p : List Nat) (hN : p.length < 4294967296)
    (ht : t < 65536) (hc : c < 65536) (hr : r < 4294967296) (hb : b < 65536) :
    wav_decoder_init (mkWav t c r b p) =
      if t ≠ 1 then .error (-134)
      else if c = 0 ∨ c > 2 then .error (-134)
      else if b ≠ 8 ∧ b ≠ 16 then .error (-134)
      else .ok { data := mkWav t c r b p, data_len := 44 + p.length, position := 44,
                 format := { format_tag := t, channels := c, sample_rate := r,
                             bytes_per_sec := (r * (b / 8) * c) % 4294967296,
                             block_align := ((b / 8) * c) % 65536, bits_per_sample := b },
                 audio_data_offset := 44, audio_data_size := p.length,
                 is_initialized := true } := by
  obtain ⟨hr0, hr1, hr2, hr3⟩ := mkWav_riff t c r b p
  obtain ⟨hw0, hw1, hw2, hw3⟩ := mkWav_wave t c r b p
  simp only [wav_decoder_init, mkWav_length]
  rw [if_neg (by omega), if_neg (by omega),
    if_neg (not_not_intro ⟨hr0, hr1, hr2, hr3⟩),
    if_neg (not_not_intro ⟨hw0, hw1, hw2, hw3⟩),
    show 44 + p.length - 12 = 32 + p.length from by omega,
    mkWav_walk t c r b p hN]
  simp only [zeroDecoder]
  rw [if_neg (by omega)]
  rw [Nat.mod_eq_of_lt ht, Nat.mod_eq_of_lt hc, Nat.mod_eq_of_lt hr, Nat.mod_eq_of_lt hb,
    mkWav_length]

end WavDecoder

namespace WavDecoder

deriving instance DecidableEq for Except

/-- A 10-byte input: shorter than the 44-byte minimum. -/
def shortInput : List Nat := List.replicate 10 0

/-- A 44-byte input whose RIFF marker is corrupted (fourth byte 88 instead
of 70). -/
def badRiffInput : List Nat := 82 :: 73 :: 70 :: 88 :: List.replicate 40 0

/-- A 44-byte input with a valid header whose WAVE marker is corrupted. -/
def badWaveInput : List Nat :=
  [82, 73, 70, 70] ++ [36, 0, 0, 0] ++ [87, 65, 86, 70] ++ List.replicate 32 0

/-- A 44-byte input whose fmt sub-chunk declares only 15 bytes. -/
def fmtSmallInput : List Nat :=
  [82, 73, 70, 70] ++ [36, 0, 0, 0] ++ [87, 65, 86, 69] ++
  [102, 109, 116, 32] ++ [15, 0, 0, 0] ++ List.replicate 24 0

/-- A 44-byte input with a valid fmt sub-chunk but no data sub-chunk (a LIST
sub-chunk fills the remainder). -/
def noDataInput : List Nat :=
  [82, 73, 70, 70] ++ [36, 0, 0, 0] ++ [87, 65, 86, 69] ++
  [102, 109, 116, 32] ++ [16, 0, 0, 0] ++
  [1, 0, 1, 0, 68, 172, 0, 0, 136, 88, 1, 0, 2, 0, 16, 0] ++
  [76, 73, 83, 84] ++ [0, 0, 0, 0]

end WavDecoder

/-- C3 counterexample: the claim says the under-44-byte failure returns a
distinct (recoverable) error value and a corrupted RIFF marker a different
(terminal) one; in wav_decoder.c both paths return the same value -EINVAL
(-22), so the two error classes are not distinct. -/
theorem wav_init_error_not_distinct_counterexample :
    WavDecoder.wav_decoder_init WavDecoder.shortInput = .error (-22) ∧
    WavDecoder.wav_decoder_init WavDecoder.badRiffInput = .error (-22) ∧
    WavDecoder.wav_decoder_init WavDecoder.shortInput =
      WavDecoder.wav_decoder_init WavDecoder.badRiffInput := by
  refine ⟨?_, ?_, ?_⟩ <;> decide

/-- C3 amended: wav_decoder_init returns -EINVAL (-22) both for input
shorter than the 44-byte minimum and for every structural failure (corrupted
RIFF or WAVE marker, fmt sub-chunk under 16 bytes, missing data sub-chunk),
and returns the distinct terminal value -ENOTSUP (-134) for unsupported
format parameters (non-PCM format tag, channel count outside 1..2, bit depth
outside 8/16); the short-input error is therefore not distinguishable from
the structural FormatError cases, only the unsupported-format cases carry a
distinct value. -/
theorem wav_init_error_classes :
    ((-22 : Int) ≠ -134) ∧
    (∀ data : List Nat, 0 < data.length → data.length < 44 →
      WavDecoder.wav_decoder_init data = .error (-22)) ∧
    (∀ data : List Nat, 44 ≤ data.length →
      ¬ (data.getD 0 0 = 82 ∧ data.getD 1 0 = 73 ∧
         data.getD 2 0 = 70 ∧ data.getD 3 0 = 70) →
      WavDecoder.wav_decoder_init data = .error (-22)) ∧
    (∀ data : List Nat, 44 ≤ data.length →
      (data.getD 0 0 = 82 ∧ data.getD 1 0 = 73 ∧
       data.getD 2 0 = 70 ∧ data.getD 3 0 = 70) →
      ¬ (data.getD 8 0 = 87 ∧ data.getD 9 0 = 65 ∧
         data.getD 10 0 = 86 ∧ data.getD 11 0 = 69) →
      WavDecoder.wav_decoder_init data = .error (-22)) ∧
    WavDecoder.wav_decoder_init WavDecoder.fmtSmallInput = .error (-22) ∧
    WavDecoder.wav_decoder_init WavDecoder.noDataInput = .error (-22) ∧
    (∀ t c r b : Nat, ∀ p : List Nat, p.length < 4294967296 →
      t < 65536 → c < 65536 → r < 4294967296 → b < 65536 →
      (t ≠ 1 → WavDecoder.wav_decoder_init (WavDecoder.mkWav t c r b p) = .error (-134)) ∧
      (t = 1 → (c = 0 ∨ c > 2) →
        WavDecoder.wav_decoder_init (WavDecoder.mkWav t c r b p) = .error (-134)) ∧
      (t = 1 → 0 < c → c ≤ 2 → b ≠ 8 → b ≠ 16 →
        WavDecoder.wav_decoder_init (WavDecoder.mkWav t c r b p) = .error (-134))) := by
  refine ⟨by norm_num, ?_, ?_, ?_, by decide, by decide, ?_⟩
  · intro data h0 h44
    simp only [WavDecoder.wav_decoder_init]
    rw [if_neg (by omega), if_pos h44]
  · intro data h44 hriff
    simp only [WavDecoder.wav_decoder_init]
    rw [if_neg (by omega), if_neg (by omega), if_pos hriff]
  · intro data h44 hriff hwave
    simp only [WavDecoder.wav_decoder_init]
    rw [if_neg (by omega), if_neg (by omega), if_neg (not_not_intro hriff), if_pos hwave]
  · intro t c r b p hN ht hc hr hb
    rw [WavDecoder.mkWav_init t c r b p hN ht hc hr hb]
    refine ⟨fun htag => ?_, fun htag hch => ?_, fun htag hc1 hc2 hb1 hb2 => ?_⟩
    · rw [if_pos htag]
    · rw [if_neg (by omega), if_pos hch]
    · rw [if_neg (by omega), if_neg (by omega), if_pos ⟨hb1, hb2⟩]

/-- C3 amended claim witness at concrete inputs: a 3-channel 16-bit PCM file
is rejected with -ENOTSUP while a 10-byte input is rejected with -EINVAL. -/
theorem wav_init_error_classes_witness :
    (0 : Nat) < WavDecoder.shortInput.length ∧ WavDecoder.shortInput.length < 44 ∧
    WavDecoder.wav_decoder_init WavDecoder.shortInput = .error (-22) ∧
    WavDecoder.wav_decoder_init (WavDecoder.mkWav 1 3 44100 16 [5, 6]) = .error (-134) :=
  ⟨by decide, by decide,
   wav_init_error_classes.2.1 WavDecoder.shortInput (by decide) (by decide),
   (wav_init_error_classes.2.2.2.2.2.2 1 3 44100 16 [5, 6] (by decide) (by decide)
      (by decide) (by decide) (by decide)).2.1 rfl (by omega)⟩

namespace WavDecoder

/-- The 44 header bytes of mkWav, without the payload. -/
def wavHeader (t c r b : Nat) (n : Nat) : List Nat :=
  [82, 73, 70, 70] ++ le32bytes (36 + n) ++ [87, 65, 86, 69] ++
  [102, 109, 116, 32] ++ le32bytes 16 ++
  le16bytes t ++ le16bytes c ++ le32bytes r ++
  le32bytes (r * (b / 8) * c) ++ le16bytes ((b / 8) * c) ++ le16bytes b ++
  [100, 97, 116, 97] ++ le32bytes n

theorem mkWav_eq_append (t c r b : Nat) (p : List Nat) :
    mkWav t c r b p = wavHeader t c r b p.length ++ p := rfl

theorem wavHeader_length (t c r b n : Nat) : (wavHeader t c r b n).length = 44 := by
  simp [wavHeader, le16bytes, le32bytes]

theorem getD_append_right (l1 l2 : List Nat) (n : Nat) (h : l1.length ≤ n) :
    (l1 ++ l2).getD n 0 = l2.getD (n - l1.length) 0 := by
  rw [List.getD_eq_getElem?_getD, List.getD_eq_getElem?_getD, List.getElem?_append_right h]

theorem mkWav_getD_payload (t c r b : Nat) (p : List Nat) (j : Nat) :
    (mkWav t c r b p).getD (44 + j) 0 = p.getD j 0 := by
  rw [mkWav_eq_append, getD_append_right _ _ _ (by rw [wavHeader_length]; omega),
    wavHeader_length]
  congr 1
  omega

/-- Draining lemma: from any cursor inside the audio region of a mkWav
decoder state, a schedule of reads whose total covers the remaining region
returns exactly the remaining payload and leaves the cursor at the end. -/
theorem wav_read_seq_drain (t c r b : Nat) (p : List Nat) (f : audio_format_info)
    (ns : List Nat) (pos : Nat)
    (hp1 : 44 ≤ pos) (hp2 : pos ≤ 44 + p.length)
    (hsum : 44 + p.length - pos ≤ ns.sum) :
    wav_read_seq
      { data := mkWav t c r b p, data_len := 44 + p.length, position := pos,
        format := f, audio_data_offset := 44, audio_data_size := p.length,
        is_initialized := true } ns =
    ({ data := mkWav t c r b p, data_len := 44 + p.length, position := 44 + p.length,
       format := f, audio_data_offset := 44, audio_data_size := p.length,
       is_initialized := true }, p.drop (pos - 44)) := by
  induction ns generalizing pos with
  | nil =>
    have hpos : pos = 44 + p.length := by
      simp only [List.sum_nil] at hsum
      omega
    subst hpos
    simp only [wav_read_seq]
    rw [show 44 + p.length - 44 = p.length from by omega, List.drop_length]
  | cons n ns ih =>
    simp only [wav_read_seq, wav_decoder_read]
    by_cases hn0 : n = 0
    · rw [if_pos (by simp [hn0])]
      rw [ih pos hp1 hp2 (by simp only [List.sum_cons] at hsum; omega)]
      simp
    · rw [if_neg (by simp [hn0])]
      by_cases hend : 44 + p.length ≤ pos
      · rw [if_pos (by simpa using hend)]
        rw [ih pos hp1 hp2 (by simp only [List.sum_cons] at hsum; omega)]
        simp
      · rw [if_neg (by simpa using hend)]
        have hlt : pos < 44 + p.length := by omega
        set m := if n > 44 + p.length - pos then 44 + p.length - pos else n with hm
        have hmle : m ≤ 44 + p.length - pos := by rw [hm]; split <;> omega
        have hout : ((List.range m).map fun i =>
            (mkWav t c r b p).getD (pos + i) 0) = (p.drop (pos - 44)).take m := by
          have hbyte : ∀ i : Nat, (mkWav t c r b p).getD (pos + i) 0 =
              p.getD ((pos - 44) + i) 0 := by
            intro i
            rw [show pos + i = 44 + ((pos - 44) + i) from by omega, mkWav_getD_payload]
          calc ((List.range m).map fun i => (mkWav t c r b p).getD (pos + i) 0)
              = (List.range m).map fun i => p.getD ((pos - 44) + i) 0 :=
                List.map_congr_left fun i _ => hbyte i
            _ = (p.drop (pos - 44)).take m :=
                CircularBuffers.map_range_getD p (pos - 44) m (by omega)
        rw [hout]
        rw [ih (pos + m) (by omega) (by omega)
          (by simp only [List.sum_cons] at hsum; rw [hm]; split <;> omega)]
        rw [show pos + m - 44 = (pos - 44) + m from by omega]
        rw [← List.drop_drop]
        simp [List.take_append_drop]
end WavDecoder

/-- C4: For every mono 16-bit 44100 Hz PCM WAV buffer built over an N-byte
payload, wav_decoder_init succeeds, wav_decoder_get_format reports channels
1, sample rate 44100 and 16 bits per sample, any schedule of successive
wav_decoder_read calls whose requests total at least N returns exactly the
payload bytes in order, a further read then returns 0 bytes (not an error),
and wav_decoder_is_eof returns true. -/
theorem wav_decoder_roundtrip (p : List Nat) (ns : List Nat)
    (hN : p.length < 4294967296) (hsum : p.length ≤ ns.sum) :
    ∃ d : WavDecoder.wav_decoder,
      WavDecoder.wav_decoder_init (WavDecoder.mkWav 1 1 44100 16 p) = .ok d ∧
      (∃ f : WavDecoder.audio_format_info,
        WavDecoder.wav_decoder_get_format d = .ok f ∧
        f.channels = 1 ∧ f.sample_rate = 44100 ∧ f.bits_per_sample = 16) ∧
      (WavDecoder.wav_read_seq d ns).2 = p ∧
      (∀ k, (WavDecoder.wav_decoder_read (WavDecoder.wav_read_seq d ns).1 k).2 = []) ∧
      WavDecoder.wav_decoder_is_eof (WavDecoder.wav_read_seq d ns).1 = true := by
  have hinit := WavDecoder.mkWav_init 1 1 44100 16 p hN (by omega) (by omega) (by omega)
    (by omega)
  rw [if_neg (by omega), if_neg (by omega), if_neg (by omega)] at hinit
  refine ⟨_, hinit, ⟨_, rfl, rfl, rfl, rfl⟩, ?_, ?_, ?_⟩ <;>
    rw [WavDecoder.wav_read_seq_drain 1 1 44100 16 p _ ns 44 (by omega) (by omega)
      (by omega)]
  · simp
  · intro k
    simp only [WavDecoder.wav_decoder_read]
    by_cases hk : k = 0
    · rw [if_pos (by simp [hk])]
    · rw [if_neg (by simp [hk]), if_pos (by simp)]
  · simp [WavDecoder.wav_decoder_is_eof]

/-- C4 witness: a 4-byte payload drained by reads of 3 and 9 bytes. -/
theorem wav_decoder_roundtrip_witness :
    ([10, 20, 30, 40] : List Nat).length < 4294967296 ∧
    ([10, 20, 30, 40] : List Nat).length ≤ ([3, 9] : List Nat).sum ∧
    ∃ d : WavDecoder.wav_decoder,
      WavDecoder.wav_decoder_init (WavDecoder.mkWav 1 1 44100 16 [10, 20, 30, 40]) = .ok d ∧
      (∃ f : WavDecoder.audio_format_info,
        WavDecoder.wav_decoder_get_format d = .ok f ∧
        f.channels = 1 ∧ f.sample_rate = 44100 ∧ f.bits_per_sample = 16) ∧
      (WavDecoder.wav_read_seq d [3, 9]).2 = [10, 20, 30, 40] ∧
      (∀ k, (WavDecoder.wav_decoder_read (WavDecoder.wav_read_seq d [3, 9]).1 k).2 = []) ∧
      WavDecoder.wav_decoder_is_eof (WavDecoder.wav_read_seq d [3, 9]).1 = true :=
  ⟨by decide, by decide,
   wav_decoder_roundtrip [10, 20, 30, 40] [3, 9] (by decide) (by decide)⟩

namespace WavDecoder

/-- The 60-byte fixture: 44-byte header plus 16 payload bytes. -/
def firstChunk60 : List Nat := mkWav 1 1 44100 16 (List.replicate 16 7)

/-- The decoder state after initializing from firstChunk60. -/
def decoderAfter60 : wav_decoder :=
  { data := firstChunk60, data_len := 60, position := 44,
    format := { format_tag := 1, channels := 1, sample_rate := 44100,
                bytes_per_sec := 88200, block_align := 2, bits_per_sample := 16 },
    audio_data_offset := 44, audio_data_size := 16, is_initialized := true }

/-- A 44-byte input whose data sub-chunk declares 1000 bytes although no
payload bytes follow. -/
def oversizeDataInput : List Nat :=
  [82, 73, 70, 70] ++ [36, 0, 0, 0] ++ [87, 65, 86, 69] ++
  [102, 109, 116, 32] ++ [16, 0, 0, 0] ++
  [1, 0, 1, 0, 68, 172, 0, 0, 136, 88, 1, 0, 2, 0, 16, 0] ++
  [100, 97, 116, 97] ++ [232, 3, 0, 0]

/-- The decoder state wav_decoder_init produces on oversizeDataInput. -/
def oversizeDataDecoder : wav_decoder :=
  { data := oversizeDataInput, data_len := 44, position := 44,
    format := { format_tag := 1, channels := 1, sample_rate := 44100,
                bytes_per_sec := 88200, block_align := 2, bits_per_sample := 16 },
    audio_data_offset := 44, audio_data_size := 1000, is_initialized := true }

/-- A 44-byte input with valid markers whose first sub-chunk (JUNK) declares
a 100-byte length, larger than the 24 bytes that remain. -/
def oversizeChunkInput : List Nat :=
  [82, 73, 70, 70] ++ [36, 0, 0, 0] ++ [87, 65, 86, 69] ++
  [74, 85, 78, 75] ++ [100, 0, 0, 0] ++ List.replicate 24 0

end WavDecoder

/-- C5 (code bug): once the decoder has been initialized from a first chunk
whose audio region starts at offset 44, feeding a subsequent 100-byte chunk
through wav_decoder_read_samples does NOT return the entire chunk: the code
re-applies the first-chunk header skip (audio_data_offset < chunk_size) to
every chunk, so it returns the pointer chunk+44 with length 56, silently
dropping the first 44 audio bytes, where the claim (and the comment in
wav_decoder.c:274) requires offset 0 and length 100. -/
theorem wav_read_samples_skips_offset :
    WavDecoder.wav_decoder_init WavDecoder.firstChunk60 = .ok WavDecoder.decoderAfter60 ∧
    (WavDecoder.wav_decoder_read_samples WavDecoder.decoderAfter60
      (List.replicate 100 5)).2.2 = some (44, 56) ∧
    (WavDecoder.wav_decoder_read_samples WavDecoder.decoderAfter60
      (List.replicate 100 5)).2.1 = 56 ∧
    (WavDecoder.wav_decoder_read_samples WavDecoder.decoderAfter60
      (List.replicate 100 5)).2.2 ≠
      some (0, (List.replicate 100 5 : List Nat).length) := by
  refine ⟨by decide, by decide, by decide, by decide⟩

/-- C6 (code bug): wav_decoder_init never validates the declared data
sub-chunk length against the supplied buffer, so on a 44-byte input whose
data sub-chunk declares 1000 bytes it succeeds with
audio_data_offset + audio_data_size = 1044 > data_len = 44, violating the
claimed invariant; a subsequent wav_decoder_read then copies from beyond the
supplied buffer (8 fabricated bytes below, an out-of-bounds memcpy in C). -/
theorem wav_init_audio_region_overflow :
    WavDecoder.wav_decoder_init WavDecoder.oversizeDataInput =
      .ok WavDecoder.oversizeDataDecoder ∧
    WavDecoder.oversizeDataDecoder.audio_data_offset +
      WavDecoder.oversizeDataDecoder.audio_data_size = 1044 ∧
    WavDecoder.oversizeDataDecoder.data_len = 44 ∧
    ¬ (WavDecoder.oversizeDataDecoder.audio_data_offset +
        WavDecoder.oversizeDataDecoder.audio_data_size ≤
       WavDecoder.oversizeDataDecoder.data_len) ∧
    (WavDecoder.wav_decoder_read WavDecoder.oversizeDataDecoder 8).2.length = 8 := by
  refine ⟨by decide, by decide, by decide, by decide, by decide⟩

/-- C10 (code bug): when a sub-chunk declares a length larger than the bytes
remaining, the walker of wav_decoder_init advances its pointer past the end
of the input and the size_t subtraction remaining -= 8 + chunk_size wraps:
on the 44-byte input with a declared 100-byte sub-chunk, one advance moves
the offset to 120 > 44 and remaining to 2^64 - 76, which still passes the
remaining >= 8 loop guard, so the walk continues reading out of bounds. -/
theorem chunk_walk_remaining_underflow :
    WavDecoder.oversizeChunkInput.length = 44 ∧
    WavDecoder.le32 WavDecoder.oversizeChunkInput 12 = 1263424842 ∧
    WavDecoder.le32 WavDecoder.oversizeChunkInput 16 = 100 ∧
    WavDecoder.chunkAdvance 12 (WavDecoder.oversizeChunkInput.length - 12)
      (WavDecoder.le32 WavDecoder.oversizeChunkInput 16) = (120, 18446744073709551540) ∧
    44 < 120 ∧ 8 ≤ 18446744073709551540 := by
  refine ⟨by decide, by decide, by decide, by decide, by decide, by decide⟩

namespace CircularBuffers

theorem circular_buffer_write_timeout_eq (cb : circular_buffer) (data : List Nat)
    (hlt : cb.count < cb.size) :
    circular_buffer_write_timeout cb data = circular_buffer_write cb data := by
  by_cases hd : data.length = 0
  · simp [circular_buffer_write_timeout, circular_buffer_write, hd]
  · have hfull : cb.count ≠ cb.size := by omega
    simp only [circular_buffer_write_timeout, circular_buffer_write, if_neg hd, if_neg hfull]
    have hnz : (if data.length > cb.size - cb.count then cb.size - cb.count
        else data.length) ≠ 0 := by
      split <;> omega
    rw [if_neg hnz]

end CircularBuffers

namespace Audioplay

/-- audio_state_t (audiosys.h). -/
inductive audio_state where
  | uninitialized
  | initialized
  | playing
  | paused
  | error
deriving DecidableEq

/-- The parts of the static audio_ctx of audioplay.c that the verified calls
touch: playback state, volume and the output circular buffer. -/
structure audio_ctx where
  state : audio_state
  volume : Nat
  audio_buffer : CircularBuffers.circular_buffer

/-- audio_system_pause (audioplay.c:162-172): only reads and writes
audio_ctx.state. -/
def audio_system_pause (s : audio_state) : audio_state × Int :=
  if s ≠ .playing then (s, -22) else (.paused, 0)

/-- audio_system_resume (audioplay.c:174-184). -/
def audio_system_resume (s : audio_state) : audio_state × Int :=
  if s ≠ .paused then (s, -22) else (.playing, 0)

/-- audio_system_write (audioplay.c:186-221): rejects empty data and the
uninitialized state with -EINVAL, returns 0 and drops the whole request when
the buffer is more than three-quarters full, and otherwise forwards to
circular_buffer_write_timeout (10 ms timeout). -/
def audio_system_write (ctx : audio_ctx) (data : List Nat) : audio_ctx × Int :=
  if data.length = 0 then (ctx, -22)
  else if ctx.state = .uninitialized then (ctx, -22)
  else
    let current_size := CircularBuffers.circular_buffer_size_get ctx.audio_buffer
    let available_space := CircularBuffers.circular_buffer_space_get ctx.audio_buffer
    let total_capacity := current_size + available_space
    if current_size > total_capacity * 3 / 4 then (ctx, 0)
    else
      let r := CircularBuffers.circular_buffer_write_timeout ctx.audio_buffer data
      ({ ctx with audio_buffer := r.1 }, (r.2 : Int))

end Audioplay

namespace Audiosys

/-- The audio_system state of audiosys.c, for the buzzer backend whose
audioplay_buzzer_* functions (audioplay_stubs.c) all return 0. -/
structure audio_system_state where
  initialized : Bool
  state : Audioplay.audio_state
deriving DecidableEq

/-- audio_system_start (audiosys.c:83-120) for the buzzer backend: the stub
start returns 0, so from any initialized state the result is Playing. -/
def audio_system_start (s : audio_system_state) : audio_system_state × Int :=
  if s.initialized = false then (s, -22)
  else if s.state = .playing then (s, 0)
  else ({ s with state := .playing }, 0)

/-- audio_system_stop (audiosys.c:122-149) for the buzzer backend: the stub
stop returns 0 (which is not negative), so the state always becomes
Initialized. -/
def audio_system_stop (s : audio_system_state) : audio_system_state × Int :=
  if s.initialized = false then (s, -22)
  else ({ s with state := .initialized }, 0)

/-- audio_system_pause (audiosys.c:151-155): for now, just stop. -/
def audio_system_pause (s : audio_system_state) : audio_system_state × Int :=
  audio_system_stop s

/-- audio_system_resume (audiosys.c:157-161): for now, just start. -/
def audio_system_resume (s : audio_system_state) : audio_system_state × Int :=
  audio_system_start s

end Audiosys

/-- C7 counterexample: in the abstraction layer audiosys.c, pause is
implemented as stop, so from Playing it succeeds but lands in Initialized
rather than Paused, and from Paused it also succeeds (returns 0) where the
claim requires an InvalidState failure. -/
theorem audiosys_pause_counterexample :
    Audiosys.audio_system_pause { initialized := true, state := .playing } =
      ({ initialized := true, state := .initialized }, 0) ∧
    ({ initialized := true, state := .initialized } : Audiosys.audio_system_state).state ≠
      Audioplay.audio_state.paused ∧
    Audiosys.audio_system_pause { initialized := true, state := .paused } =
      ({ initialized := true, state := .initialized }, 0) :=
  ⟨by decide, by decide, by decide⟩

/-- C7 amended: the claimed pause/resume contract holds for the buzzer
backend implementation (audioplay.c): pause succeeds exactly from Playing,
moving to Paused, and otherwise returns -EINVAL leaving the state unchanged;
resume succeeds exactly from Paused, moving to Playing, and otherwise
returns -EINVAL.  The abstraction layer (audiosys.c) instead aliases pause
to stop and resume to start, so its pause moves any initialized system to
Initialized (not Paused) and succeeds even when not playing. -/
theorem pause_resume_state_machine :
    (∀ s : Audioplay.audio_state,
      (s = .playing → Audioplay.audio_system_pause s = (.paused, 0)) ∧
      (s ≠ .playing → Audioplay.audio_system_pause s = (s, -22)) ∧
      (s = .paused → Audioplay.audio_system_resume s = (.playing, 0)) ∧
      (s ≠ .paused → Audioplay.audio_system_resume s = (s, -22))) ∧
    (∀ t : Audiosys.audio_system_state,
      Audiosys.audio_system_pause t = Audiosys.audio_system_stop t ∧
      Audiosys.audio_system_resume t = Audiosys.audio_system_start t ∧
      (t.initialized = true →
        Audiosys.audio_system_pause t = ({ t with state := .initialized }, 0))) := by
  constructor
  · intro s
    refine ⟨fun h => ?_, fun h => ?_, fun h => ?_, fun h => ?_⟩
    · subst h; decide
    · simp [Audioplay.audio_system_pause, h]
    · subst h; decide
    · simp [Audioplay.audio_system_resume, h]
  · intro t
    refine ⟨rfl, rfl, fun h => ?_⟩
    simp [Audiosys.audio_system_pause, Audiosys.audio_system_stop, h]

/-- C7 amended claim witness at concrete states. -/
theorem pause_resume_state_machine_witness :
    Audioplay.audio_system_pause .playing = (.paused, 0) ∧
    Audioplay.audio_system_pause .initialized = (.initialized, -22) ∧
    Audioplay.audio_system_resume .paused = (.playing, 0) ∧
    Audioplay.audio_system_resume .playing = (.playing, -22) :=
  ⟨(pause_resume_state_machine.1 .playing).1 rfl,
   (pause_resume_state_machine.1 .initialized).2.1 (by decide),
   (pause_resume_state_machine.1 .paused).2.2.1 rfl,
   (pause_resume_state_machine.1 .playing).2.2.2 (by decide)⟩

namespace Audioplay

/-- A 2048-byte output buffer holding 1537 bytes: over the three-quarter
threshold (1536) while 511 bytes of space remain. -/
def nearFullCtx : audio_ctx :=
  { state := .playing, volume := 50,
    audio_buffer := { buffer := fun _ => 0, size := 2048, head := 1537, tail := 0,
                      count := 1537 } }

/-- An empty 8-byte output buffer. -/
def emptyBufCtx : audio_ctx :=
  { state := .playing, volume := 50,
    audio_buffer := { buffer := fun _ => 0, size := 8, head := 0, tail := 0, count := 0 } }

end Audioplay

/-- C8 counterexample: with the 2048-byte output buffer 1537 bytes full
(511 bytes free), audio_system_write of a 10-byte request returns 0 and
stores nothing — the whole request is discarded even though it would fit —
because the code drops everything once the buffer is more than 75 percent
full, contradicting the claim that a write on a buffer with free space
accepts up to the available space. -/
theorem audio_system_write_drops_despite_space :
    CircularBuffers.circular_buffer_space_get Audioplay.nearFullCtx.audio_buffer = 511 ∧
    Audioplay.audio_system_write Audioplay.nearFullCtx (List.replicate 10 1) =
      (Audioplay.nearFullCtx, 0) :=
  ⟨by decide, by rfl⟩

/-- C8 amended: circular_buffer_write itself always performs the claimed
short write, storing and returning min(len, free space).  audio_system_write
forwards to it (through the 10 ms-timeout variant, which cannot block when
the buffer is not full) only while the buffer is at most three-quarters
full; above that threshold it returns 0 and drops the entire request even
though free space remains. -/
theorem audio_system_write_short_write (ctx : Audioplay.audio_ctx) (data : List Nat)
    (hne : data.length ≠ 0) (hst : ctx.state ≠ .uninitialized)
    (hInv : CircularBuffers.Inv ctx.audio_buffer) :
    (ctx.audio_buffer.count > ctx.audio_buffer.size * 3 / 4 →
      Audioplay.audio_system_write ctx data = (ctx, 0)) ∧
    (ctx.audio_buffer.count ≤ ctx.audio_buffer.size * 3 / 4 →
      (Audioplay.audio_system_write ctx data).2 =
        ((min data.length (ctx.audio_buffer.size - ctx.audio_buffer.count) : Nat) : Int) ∧
      CircularBuffers.contents (Audioplay.audio_system_write ctx data).1.audio_buffer =
        CircularBuffers.contents ctx.audio_buffer ++
          data.take (min data.length (ctx.audio_buffer.size - ctx.audio_buffer.count))) ∧
    (∀ cb : CircularBuffers.circular_buffer, CircularBuffers.Inv cb →
      (CircularBuffers.circular_buffer_write cb data).2 =
        min data.length (cb.size - cb.count)) := by
  have htot : CircularBuffers.circular_buffer_size_get ctx.audio_buffer +
      CircularBuffers.circular_buffer_space_get ctx.audio_buffer =
      ctx.audio_buffer.size := by
    have := hInv.hcount
    simp only [CircularBuffers.circular_buffer_size_get,
      CircularBuffers.circular_buffer_space_get]
    omega
  refine ⟨fun hfull => ?_, fun hbelow => ?_,
    fun cb hcb => (CircularBuffers.circular_buffer_write_spec cb data hcb).1⟩
  · simp only [Audioplay.audio_system_write, if_neg hne, if_neg hst, htot]
    rw [if_pos (by simpa [CircularBuffers.circular_buffer_size_get] using hfull)]
  · have hlt : ctx.audio_buffer.count < ctx.audio_buffer.size := by
      have := hInv.hsize
      omega
    have heq : Audioplay.audio_system_write ctx data =
        ({ ctx with audio_buffer :=
            (CircularBuffers.circular_buffer_write ctx.audio_buffer data).1 },
         ((CircularBuffers.circular_buffer_write ctx.audio_buffer data).2 : Int)) := by
      simp only [Audioplay.audio_system_write, if_neg hne, if_neg hst, htot]
      rw [if_neg (by simpa [CircularBuffers.circular_buffer_size_get] using not_lt.mpr hbelow),
        CircularBuffers.circular_buffer_write_timeout_eq ctx.audio_buffer data hlt]
    obtain ⟨hret, _, _, _, hcont⟩ :=
      CircularBuffers.circular_buffer_write_spec ctx.audio_buffer data hInv
    rw [heq]
    exact ⟨by rw [hret], by simpa using hcont⟩

/-- C8 amended claim witness: an empty 8-byte buffer accepts all 3 bytes of
a 3-byte request. -/
theorem audio_system_write_short_write_witness :
    ([1, 2, 3] : List Nat).length ≠ 0 ∧
    (Audioplay.audio_system_write Audioplay.emptyBufCtx [1, 2, 3]).2 = 3 :=
  ⟨by decide, by
    have h := ((audio_system_write_short_write Audioplay.emptyBufCtx [1, 2, 3]
      (by decide) (by decide)
      ⟨by decide, by decide, by decide, by decide, by decide⟩).2.1 (by decide)).1
    simpa using h⟩

namespace AudioBuffers

/-- Occupancy and statistics state of the static buffer_pool of
audio_buffers.c (MAX_AUDIO_BUFFERS = 4 slots).  The uint32 counters are
stored reduced modulo 2^32. -/
structure buffer_pool where
  in_use : List Bool
  buffers_allocated : Nat
  buffers_freed : Nat
  allocation_failures : Nat
deriving DecidableEq

/-- The pool right after audio_buffer_pool_init (audio_buffers.c:47-83). -/
def poolInit : buffer_pool :=
  { in_use := [false, false, false, false],
    buffers_allocated := 0, buffers_freed := 0, allocation_failures := 0 }

/-- k_mem_slab_alloc slot choice: the first free slot. -/
def findFreeSlot : List Bool → Option Nat
  | [] => none
  | b :: rest => if b then (findFreeSlot rest).map (· + 1) else some 0

/-- audio_buffer_alloc (audio_buffers.c:85-130): mark a free slot used and
increment buffers_allocated; when no slot is free the bounded wait of the
sequential model times out and allocation_failures is incremented. -/
def audio_buffer_alloc (s : buffer_pool) : buffer_pool × Option Nat :=
  match findFreeSlot s.in_use with
  | none =>
    ({ s with allocation_failures := (s.allocation_failures + 1) % 4294967296 }, none)
  | some i =>
    ({ s with
       in_use := s.in_use.set i true,
       buffers_allocated := (s.buffers_allocated + 1) % 4294967296 }, some i)

/-- audio_buffer_free (audio_buffers.c:132-166): rejects a handle outside
the pool with -EINVAL, otherwise returns the slot to the slab and increments
buffers_freed.  The verified operation sequences only ever free a currently
checked-out slot, because k_mem_slab_free on a block that is not allocated
is undefined behaviour. -/
def audio_buffer_free (s : buffer_pool) (i : Nat) : buffer_pool × Int :=
  if 4 ≤ i then (s, -22)
  else ({ s with
          in_use := s.in_use.set i false,
          buffers_freed := (s.buffers_freed + 1) % 4294967296 }, 0)

/-- struct audio_buffer_stats (audio_buffers.h). -/
structure audio_buffer_stats where
  total_buffers : Nat
  free_buffers : Nat
  buffers_in_use : Nat
  buffers_allocated : Nat
  buffers_freed : Nat
  allocation_failures : Nat
deriving DecidableEq

/-- uint32 subtraction a - b on operands already reduced modulo 2^32. -/
def u32sub (a b : Nat) : Nat := (a + (4294967296 - b % 4294967296)) % 4294967296

/-- audio_buffer_pool_get_stats (audio_buffers.c:257-277): buffers_in_use is
the uint32 difference allocated - freed, free_buffers is 4 - buffers_in_use. -/
def audio_buffer_pool_get_stats (s : buffer_pool) : audio_buffer_stats :=
  { total_buffers := 4,
    buffers_allocated := s.buffers_allocated,
    buffers_freed := s.buffers_freed,
    allocation_failures := s.allocation_failures,
    buffers_in_use := u32sub s.buffers_allocated s.buffers_freed,
    free_buffers := u32sub 4 (u32sub s.buffers_allocated s.buffers_freed) }

/-- A pool client operation: acquire, or release of the buffer at slot i. -/
inductive PoolOp where
  | alloc
  | free (i : Nat)

def runPool (s : buffer_pool) : List PoolOp → buffer_pool
  | [] => s
  | .alloc :: ops => runPool (audio_buffer_alloc s).1 ops
  | .free i :: ops => runPool (audio_buffer_free s i).1 ops

/-- Well-formedness of an operation sequence: every free targets a currently
checked-out slot of the pool. -/
def poolOpsWF (s : buffer_pool) : List PoolOp → Bool
  | [] => true
  | .alloc :: ops => poolOpsWF (audio_buffer_alloc s).1 ops
  | .free i :: ops =>
    decide (i < 4) && s.in_use.getD i false && poolOpsWF (audio_buffer_free s i).1 ops

theorem count_set_true (l : List Bool) (i : Nat) (h : l.getD i true = false) :
    (l.set i true).count true = l.count true + 1 := by
  induction l generalizing i with
  | nil => simp [List.getD] at h
  | cons b rest ih =>
    cases i with
    | zero =>
      simp only [List.getD_cons_zero] at h
      subst h
      simp [List.count_cons]
    | succ j =>
      simp only [List.getD_cons_succ] at h
      rw [List.set_cons_succ, List.count_cons, List.count_cons, ih j h]
      omega

theorem count_set_false (l : List Bool) (i : Nat) (h : l.getD i false = true) :
    (l.set i false).count true + 1 = l.count true := by
  induction l generalizing i with
  | nil => simp [List.getD] at h
  | cons b rest ih =>
    cases i with
    | zero =>
      simp only [List.getD_cons_zero] at h
      subst h
      simp [List.count_cons]
    | succ j =>
      simp only [List.getD_cons_succ] at h
      rw [List.set_cons_succ, List.count_cons, List.count_cons, ← ih j h]
      omega

theorem findFreeSlot_spec (l : List Bool) (i : Nat) (h : findFreeSlot l = some i) :
    l.getD i true = false := by
  induction l generalizing i with
  | nil => simp [findFreeSlot] at h
  | cons b rest ih =>
    by_cases hb : b = true
    · rw [findFreeSlot, if_pos hb, Option.map_eq_some'] at h
      obtain ⟨j, hj, hji⟩ := h
      subst hji
      simpa using ih j hj
    · rw [findFreeSlot, if_neg hb] at h
      have h0 : i = 0 := by simpa using h.symm
      subst h0
      simpa using hb

/-- The structural invariant the pool maintains over well-formed sequences:
4 slots, counters that are the reductions of true totals A and F with
F ≤ A, A - F checked-out slots, and A bounded by the operation count. -/
def PoolInv (s : buffer_pool) (bound : Nat) : Prop :=
  s.in_use.length = 4 ∧
  ∃ A F : Nat, s.buffers_allocated = A % 4294967296 ∧ s.buffers_freed = F % 4294967296 ∧
    F ≤ A ∧ A - F = s.in_use.count true ∧ A ≤ bound

theorem runPool_inv (ops : List PoolOp) (s : buffer_pool) (bound : Nat)
    (hInv : PoolInv s bound) (hwf : poolOpsWF s ops = true) :
    PoolInv (runPool s ops) (bound + ops.length) := by
  induction ops generalizing s bound with
  | nil => simpa [runPool] using hInv
  | cons op ops ih =>
    obtain ⟨hlen, A, F, hA, hF, hFA, hcnt, hbound⟩ := hInv
    cases op with
    | alloc =>
      rw [runPool]
      rw [poolOpsWF] at hwf
      have hnext : PoolInv (audio_buffer_alloc s).1 (bound + 1) := by
        unfold audio_buffer_alloc
        cases hfind : findFreeSlot s.in_use with
        | none =>
          exact ⟨hlen, A, F, hA, hF, hFA, hcnt, by omega⟩
        | some i =>
          refine ⟨by simpa using hlen, A + 1, F, ?_, hF, by omega, ?_, by omega⟩
          · simp only [hA, Nat.mod_add_mod]
          · have hslot := findFreeSlot_spec s.in_use i hfind
            have := count_set_true s.in_use i hslot
            simp only [this]
            omega
      have hrun := ih (audio_buffer_alloc s).1 (bound + 1) hnext hwf
      simp only [List.length_cons]
      rw [show bound + (ops.length + 1) = bound + 1 + ops.length from by omega]
      exact hrun
    | free i =>
      rw [runPool]
      rw [poolOpsWF] at hwf
      simp only [Bool.and_eq_true, decide_eq_true_eq] at hwf
      obtain ⟨⟨hi4, hslot⟩, hrest⟩ := hwf
      have hc := count_set_false s.in_use i hslot
      have hnext : PoolInv (audio_buffer_free s i).1 (bound + 1) := by
        unfold audio_buffer_free
        rw [if_neg (by omega)]
        refine ⟨by simpa using hlen, A, F + 1, hA, ?_, by omega, ?_, by omega⟩
        · simp only [hF, Nat.mod_add_mod]
        · show A - (F + 1) = (s.in_use.set i false).count true
          omega
      have hrun := ih (audio_buffer_free s i).1 (bound + 1) hnext hrest
      simp only [List.length_cons]
      rw [show bound + (ops.length + 1) = bound + 1 + ops.length from by omega]
      exact hrun

theorem u32sub_exact (A F : Nat) (h1 : F ≤ A) (h2 : A < 4294967296) :
    u32sub (A % 4294967296) (F % 4294967296) = A - F := by
  unfold u32sub
  omega

theorem u32sub_small (x : Nat) (h : x ≤ 4) : u32sub 4 x = 4 - x := by
  unfold u32sub
  omega

end AudioBuffers

/-- C9: For every well-formed sequence of pool acquire and release
operations (each release returns a currently checked-out buffer; fewer than
2^32 operations, so the uint32 counters do not wrap), the statistics
reported by audio_buffer_pool_get_stats satisfy
buffers_in_use = buffers_allocated - buffers_freed and
free_buffers + buffers_in_use = total_buffers. -/
theorem pool_stats_conservation (ops : List AudioBuffers.PoolOp)
    (hwf : AudioBuffers.poolOpsWF AudioBuffers.poolInit ops = true)
    (hlen : ops.length < 4294967296) :
    (AudioBuffers.audio_buffer_pool_get_stats
        (AudioBuffers.runPool AudioBuffers.poolInit ops)).buffers_in_use =
      (AudioBuffers.audio_buffer_pool_get_stats
        (AudioBuffers.runPool AudioBuffers.poolInit ops)).buffers_allocated -
      (AudioBuffers.audio_buffer_pool_get_stats
        (AudioBuffers.runPool AudioBuffers.poolInit ops)).buffers_freed ∧
    (AudioBuffers.audio_buffer_pool_get_stats
        (AudioBuffers.runPool AudioBuffers.poolInit ops)).free_buffers +
      (AudioBuffers.audio_buffer_pool_get_stats
        (AudioBuffers.runPool AudioBuffers.poolInit ops)).buffers_in_use =
      (AudioBuffers.audio_buffer_pool_get_stats
        (AudioBuffers.runPool AudioBuffers.poolInit ops)).total_buffers := by
  have hinit : AudioBuffers.PoolInv AudioBuffers.poolInit 0 :=
    ⟨rfl, 0, 0, rfl, rfl, by omega, by decide, by omega⟩
  obtain ⟨hlen4, A, F, hA, hF, hFA, hcnt, hbound⟩ :=
    AudioBuffers.runPool_inv ops AudioBuffers.poolInit 0 hinit hwf
  have hAlt : A < 4294967296 := by omega
  have hcntle : (AudioBuffers.runPool AudioBuffers.poolInit ops).in_use.count true ≤ 4 := by
    have := List.count_le_length
      (l := (AudioBuffers.runPool AudioBuffers.poolInit ops).in_use) (a := true)
    omega
  have hinuse : AudioBuffers.u32sub
      (AudioBuffers.runPool AudioBuffers.poolInit ops).buffers_allocated
      (AudioBuffers.runPool AudioBuffers.poolInit ops).buffers_freed = A - F := by
    rw [hA, hF]
    exact AudioBuffers.u32sub_exact A F hFA hAlt
  constructor
  · show AudioBuffers.u32sub _ _ =
      (AudioBuffers.runPool AudioBuffers.poolInit ops).buffers_allocated -
      (AudioBuffers.runPool AudioBuffers.poolInit ops).buffers_freed
    rw [hinuse, hA, hF, Nat.mod_eq_of_lt hAlt, Nat.mod_eq_of_lt (by omega)]
  · show AudioBuffers.u32sub 4 (AudioBuffers.u32sub _ _) + AudioBuffers.u32sub _ _ = 4
    rw [hinuse, AudioBuffers.u32sub_small (A - F) (by omega)]
    omega

/-- C9 witness: five operations exercising acquire, release and reuse. -/
theorem pool_stats_conservation_witness :
    AudioBuffers.poolOpsWF AudioBuffers.poolInit
      [.alloc, .alloc, .free 0, .alloc, .free 1] = true ∧
    (AudioBuffers.audio_buffer_pool_get_stats
        (AudioBuffers.runPool AudioBuffers.poolInit
          [.alloc, .alloc, .free 0, .alloc, .free 1])).free_buffers +
      (AudioBuffers.audio_buffer_pool_get_stats
        (AudioBuffers.runPool AudioBuffers.poolInit
          [.alloc, .alloc, .free 0, .alloc, .free 1])).buffers_in_use =
      (AudioBuffers.audio_buffer_pool_get_stats
        (AudioBuffers.runPool AudioBuffers.poolInit
          [.alloc, .alloc, .free 0, .alloc, .free 1])).total_buffers :=
  ⟨by decide,
   (pool_stats_conservation [.alloc, .alloc, .free 0, .alloc, .free 1]
      (by decide) (by decide)).2⟩
